import Mathlib

/-!
Verification development for the msteele3 growth-engineer repository.

Part A models the Agent Scratchpad coordination log.  The repository ships
only the documentation of this component (skills/agent-scratchpad/SKILL.md,
references/format.md) and an example log file; the helper script
skills/agent-scratchpad/scripts/scratchpad.py that implements the operations
is not part of the source tree, so the operations are modelled from the
specification text.

A log is a list of text lines (each line a list of characters).  An entry is
a header line of the form

  (hash)(hash) timestamp | TYPE | agent=a [| role=r] [| id=i] [| closes=c]

followed by free-text body lines running until the next header line or the
end of the file.

Part B models the sendMessage handler of the companion chat screen, which is
present in the source tree.
-/

/-- A line of the log file, as a list of characters. -/
abbrev Line := List Char

/-- The five entry types of the scratchpad format
    (skills/agent-scratchpad/references/format.md). -/
inductive EntryType
  | TASK
  | POINTER
  | NOTE
  | QUESTION
  | ANSWER
deriving DecidableEq, Repr

/-- Modelled from the spec: a structured scratchpad entry.  The fields are
the ones named by the data model in the spec: timestamp, type, agent,
optional role, id (questions), closes (answers), and the free-text body. -/
structure Entry where
  timestamp : Line
  type : EntryType
  agent : Line
  role : Option Line
  id : Option Line
  closes : Option Line
  body : List Line
deriving DecidableEq, Repr

/-- Error taxonomy of the spec. -/
inductive Err
  | validationError
  | notFound
  | alreadyExists
deriving DecidableEq, Repr

/-- Modelled from the spec: the durable resource at the log location.  It is
either absent, a text file (list of lines), or an incompatible resource
(for example a directory where a file is expected). -/
inductive Store
  | missing
  | file (lines : List Line)
  | incompatible
deriving DecidableEq, Repr

/-- Whether the store holds an actual log file. -/
def Store.isLog : Store → Bool
  | .file _ => true
  | _ => false

/-- Drop the given prefix from a character list, or fail. -/
def dropPfx : List Char → List Char → Option (List Char)
  | [], s => some s
  | _ :: _, [] => none
  | p :: ps, c :: cs => if p = c then dropPfx ps cs else none

/-- The marker that starts an entry header line. -/
def hdrPfx : List Char := ['#', '#', ' ']

/-- The field separator of the header format. -/
def sepBar : List Char := [' ', '|', ' ']

/-- Key of the agent field. -/
def agentKey : List Char := ['a', 'g', 'e', 'n', 't', '=']

/-- Key of the optional role field. -/
def roleKey : List Char := ['r', 'o', 'l', 'e', '=']

/-- Key of the question id field. -/
def idKey : List Char := ['i', 'd', '=']

/-- Key of the answer closes field. -/
def closesKey : List Char := ['c', 'l', 'o', 's', 'e', 's', '=']

/-- Render an entry type as the header keyword. -/
def typeStr : EntryType → List Char
  | .TASK => ['T', 'A', 'S', 'K']
  | .POINTER => ['P', 'O', 'I', 'N', 'T', 'E', 'R']
  | .NOTE => ['N', 'O', 'T', 'E']
  | .QUESTION => ['Q', 'U', 'E', 'S', 'T', 'I', 'O', 'N']
  | .ANSWER => ['A', 'N', 'S', 'W', 'E', 'R']

/-- Parse a header keyword into an entry type. -/
def parseType (s : List Char) : Option EntryType :=
  if s = typeStr .TASK then some .TASK
  else if s = typeStr .POINTER then some .POINTER
  else if s = typeStr .NOTE then some .NOTE
  else if s = typeStr .QUESTION then some .QUESTION
  else if s = typeStr .ANSWER then some .ANSWER
  else none

/-- Split a character list at every bar character. -/
def splitBar : List Char → List (List Char)
  | [] => [[]]
  | c :: cs =>
    if c = '|' then [] :: splitBar cs
    else
      match splitBar cs with
      | [] => [[c]]
      | h :: t => (c :: h) :: t

/-- Join chunks with the three-character field separator. -/
def joinBar : List (List Char) → List Char
  | [] => []
  | [x] => x
  | x :: y :: t => x ++ sepBar ++ joinBar (y :: t)

/-- Remove leading space characters. -/
def trimL (l : List Char) : List Char := l.dropWhile (fun c => c = ' ')

/-- Remove trailing space characters. -/
def trimR (l : List Char) : List Char := (trimL l.reverse).reverse

/-- Remove leading and trailing space characters. -/
def trimSp (l : List Char) : List Char := trimR (trimL l)

/-- A line is a header line when it starts with the header marker. -/
def isHeaderLine (l : Line) : Bool := (dropPfx hdrPfx l).isSome

/-- Look up the value of the first part carrying the given key prefix. -/
def findVal (key : List Char) : List (List Char) → Option (List Char)
  | [] => none
  | p :: ps =>
    match dropPfx key p with
    | some v => some v
    | none => findVal key ps

/-- Modelled from the spec: parse one header line (the scratchpad script that
would implement this is absent from the source tree).  The line must start
with the header marker; the remainder is split at the bar separators into
timestamp, type keyword, an agent=value part, and optional role=, id= and
closes= parts.  Per the parsing contract, a QUESTION header without an id
and an ANSWER header without a closes reference are malformed.  The returned
entry carries an empty body; the caller attaches the body lines. -/
def parseHeader (line : Line) : Option Entry :=
  match dropPfx hdrPfx line with
  | none => none
  | some rest =>
    match (splitBar rest).map trimSp with
    | ts :: tys :: ags :: opts =>
      match parseType tys, dropPfx agentKey ags with
      | some ty, some ag =>
        let role := findVal roleKey opts
        let id := findVal idKey opts
        let closes := findVal closesKey opts
        if ty = .QUESTION ∧ id = none then none
        else if ty = .ANSWER ∧ closes = none then none
        else some ⟨ts, ty, ag, role, id, closes, []⟩
      | _, _ => none
    | _ => none

/-- The header parts of an entry, in the fixed field order of the format:
timestamp, type, agent, then optional role, id, closes. -/
def headerParts (e : Entry) : List (List Char) :=
  [e.timestamp, typeStr e.type, agentKey ++ e.agent]
    ++ (e.role.map (fun r => roleKey ++ r)).toList
    ++ (e.id.map (fun i => idKey ++ i)).toList
    ++ (e.closes.map (fun c => closesKey ++ c)).toList

/-- Render the header line of an entry. -/
def renderHeader (e : Entry) : Line := hdrPfx ++ joinBar (headerParts e)

/-- Render a full entry: its header line followed by its body lines. -/
def renderEntry (e : Entry) : List Line := renderHeader e :: e.body

/-- Per-block parse outcome, as the spec's design notes require: a parsed
entry, or a skipped malformed header (recorded, never fatal). -/
inductive PR
  | ok (e : Entry)
  | skipped (line : Line)
deriving DecidableEq, Repr

/-- Close the pending block: parse its header and attach its body, or mark
the block skipped when the header is malformed. -/
def finishBlock : Option (Line × List Line) → List PR
  | none => []
  | some (h, b) =>
    match parseHeader h with
    | some e => [.ok { e with body := b }]
    | none => [.skipped h]

/-- Modelled from the spec: the single scan that groups lines into blocks.
A header line closes the pending block and opens a new one; other lines are
body lines of the pending block, and lines before the first header (the
preamble) are ignored. -/
def parseAux : Option (Line × List Line) → List Line → List PR
  | cur, [] => finishBlock cur
  | cur, l :: ls =>
    if isHeaderLine l then finishBlock cur ++ parseAux (some (l, [])) ls
    else
      match cur with
      | none => parseAux none ls
      | some (h, b) => parseAux (some (h, b ++ [l])) ls

/-- Parse a log file into per-block outcomes. -/
def parseResults (lines : List Line) : List PR := parseAux none lines

/-- The well-formed entries of a log file, in file order; malformed blocks
are skipped. -/
def parseEntries (lines : List Line) : List Entry :=
  (parseResults lines).filterMap (fun r =>
    match r with
    | .ok e => some e
    | .skipped _ => none)

/-- Modelled from the spec: the preamble written by init, taken from the
example scratchpad file shipped with the repository. -/
def initPreamble : List Line :=
  [("# Agent Scratchpad").data,
   [],
   ("Shared, append-only scratchpad for coordinating multiple agents working in this repo.").data,
   [],
   ("Protocol:").data,
   ("- Read before starting non-trivial work.").data,
   ("- Append entries (TASK/POINTER/QUESTION/ANSWER) with concrete file paths and commands.").data,
   ("- Prefer leaving a QUESTION over blocking.").data,
   [],
   ("---").data]

/-- Modelled from the spec: init ensures the log exists with its preamble.
On an existing log it is a no-op; on an incompatible resource it fails with
AlreadyExists and leaves the resource untouched.  Returns the result paired
with the post-state of the store. -/
def initOp (s : Store) : Except Err Unit × Store :=
  match s with
  | .missing => (.ok (), .file initPreamble)
  | .file ls => (.ok (), .file ls)
  | .incompatible => (.error .alreadyExists, .incompatible)

/-- The caller-supplied arguments of an add call.  The type arrives as raw
text; the id of a question is the id derived for it by the caller, when one
could be derived. -/
structure AddArgs where
  typeRaw : Line
  agent : Line
  role : Option Line
  id : Option Line
  closes : Option Line
  body : List Line
deriving DecidableEq, Repr

/-- The entry an add call constructs: ids are kept only on questions and
closes references only on answers, per the data model. -/
def mkAdded (t : EntryType) (ts : Line) (a : AddArgs) : Entry :=
  ⟨ts, t, a.agent, a.role,
    (if t = .QUESTION then a.id else none),
    (if t = .ANSWER then a.closes else none),
    a.body⟩

/-- Modelled from the spec: add validates its arguments and appends exactly
one rendered entry to the log lines.  It fails with ValidationError when the
type keyword is unrecognized, when a question has no derivable id, or when
an answer has no closes reference; on failure the log is unchanged.  The
timestamp is supplied by the environment.  Returns the result paired with
the post-state of the log lines. -/
def addOp (ts : Line) (a : AddArgs) (ls : List Line) : Except Err Entry × List Line :=
  match parseType a.typeRaw with
  | none => (.error .validationError, ls)
  | some t =>
    if t = .QUESTION ∧ a.id = none then (.error .validationError, ls)
    else if t = .ANSWER ∧ a.closes = none then (.error .validationError, ls)
    else (.ok (mkAdded t ts a), ls ++ renderEntry (mkAdded t ts a))

/-- The last n elements of a list, in order. -/
def lastN (n : Nat) (l : List α) : List α := l.drop (l.length - n)

/-- Modelled from the spec: tail returns the last n parsed entries of the
log in file order, and fails with NotFound when the log resource is missing
or incompatible (the log does not exist). -/
def tailOp (n : Nat) (s : Store) : Except Err (List Entry) :=
  match s with
  | .file ls => .ok (lastN n (parseEntries ls))
  | _ => .error .notFound

/-- Modelled from the spec: the single forward scan behind openQuestions.
Questions are accumulated in file order; an answer removes every accumulated
question whose id it closes. -/
def openScan (acc : List Entry) : List Entry → List Entry
  | [] => acc
  | e :: rest =>
    match e.type with
    | .QUESTION => openScan (acc ++ [e]) rest
    | .ANSWER =>
      match e.closes with
      | some c => openScan (acc.filter (fun q => decide (q.id ≠ some c))) rest
      | none => openScan acc rest
    | _ => openScan acc rest

/-- The still-open questions of an entry sequence. -/
def openQuestions (es : List Entry) : List Entry := openScan [] es

/-- Modelled from the spec: openQuestions over the store; NotFound when the
log does not exist. -/
def openQuestionsOp (s : Store) : Except Err (List Entry) :=
  match s with
  | .file ls => .ok (openQuestions (parseEntries ls))
  | _ => .error .notFound

/-- Whether no answer in the remainder of the log closes this question:
declarative reading of the claim. -/
def stillOpen (e : Entry) (rest : List Entry) : Bool :=
  rest.all (fun a => !(decide (a.type = .ANSWER) && decide (a.closes ≠ none) && decide (a.closes = e.id)))

/-- Declarative form of openQuestions, following the specification words:
exactly the QUESTION entries whose id is not referenced by the closes field
of any ANSWER appearing later in the log, in file order. -/
def openQuestionsSpec : List Entry → List Entry
  | [] => []
  | e :: rest =>
    if e.type = .QUESTION ∧ stillOpen e rest = true then e :: openQuestionsSpec rest
    else openQuestionsSpec rest

/-- Modelled from the spec: filterByType returns all entries of the given
type in file order; NotFound when the log does not exist. -/
def filterByTypeOp (t : EntryType) (s : Store) : Except Err (List Entry) :=
  match s with
  | .file ls => .ok ((parseEntries ls).filter (fun e => decide (e.type = t)))
  | _ => .error .notFound

/-- Modelled from the spec: the question id generator.  The spec prescribes
an agent-local timestamp plus a short random suffix, and its design notes
allow any sufficiently unique scheme with no central allocator; it is
modelled as an injective rendering of a strictly increasing counter. -/
def genId (n : Nat) : Line := 'Q' :: '-' :: List.replicate n '1'

/-- Arguments of one question call. -/
structure QArg where
  agent : Line
  ts : Line
  body : List Line
deriving DecidableEq, Repr

/-- Modelled from the spec: a sequence of question calls against the same
log, each consuming a fresh id from the generator state and appending its
rendered entry; returns the entries in call order. -/
def runQuestions : List QArg → Nat → List Line → List Entry
  | [], _, _ => []
  | q :: qs, n, ls =>
    let e : Entry := ⟨q.ts, .QUESTION, q.agent, none, some (genId n), none, q.body⟩
    e :: runQuestions qs (n + 1) (ls ++ renderEntry e)

/-- A header field is representable when it contains no bar character and
neither starts nor ends with a space: such a field survives the
split-and-trim of the parser unchanged. -/
def fieldOk (f : List Char) : Prop :=
  ('|' ∉ f) ∧ f.head? ≠ some ' ' ∧ f.getLast? ≠ some ' '

instance (f : List Char) : Decidable (fieldOk f) := by
  unfold fieldOk
  infer_instance

/-- An optional field is representable when present and representable. -/
def optOk : Option (List Char) → Prop
  | none => True
  | some v => fieldOk v

instance : (o : Option (List Char)) → Decidable (optOk o)
  | none => .isTrue trivial
  | some v => inferInstanceAs (Decidable (fieldOk v))

/-- A body is representable when none of its lines looks like a header. -/
def bodyOk (b : List Line) : Prop := ∀ l ∈ b, isHeaderLine l = false

instance (b : List Line) : Decidable (bodyOk b) := by
  unfold bodyOk
  infer_instance

/-- An entry is representable when all its header fields and its body are,
and it satisfies the data-model constraints: a question carries an id and an
answer carries a closes reference. -/
def entryWF (e : Entry) : Prop :=
  fieldOk e.timestamp ∧ fieldOk e.agent ∧ optOk e.role ∧ optOk e.id ∧
    optOk e.closes ∧ bodyOk e.body ∧
    (e.type = .QUESTION → e.id ≠ none) ∧ (e.type = .ANSWER → e.closes ≠ none)

instance (e : Entry) : Decidable (entryWF e) := by
  unfold entryWF
  infer_instance

/-- A line list starts at an entry boundary: it is empty or begins with a
header line. -/
def atBoundary : List Line → Prop
  | [] => True
  | l :: _ => isHeaderLine l = true

/-- Chat message roles of the companion chat screen. -/
inductive ChatRole
  | user
  | assistant
  | system
deriving DecidableEq, Repr

/-- A chat message (the Message type of the chat screen). -/
structure ChatMsg where
  role : ChatRole
  content : String
deriving DecidableEq, Repr

/-- The component state of ChatScreen: messages, input, loading, the model
menu flag and the selected model. -/
structure ChatState where
  messages : List ChatMsg
  input : String
  loading : Bool
  modelMenuOpen : Bool
  selectedModel : String
deriving DecidableEq, Repr

/-- The network request sendMessage issues to the chat-completions API. -/
structure ChatRequest where
  model : String
  messages : List ChatMsg
  maxTokens : Nat
deriving DecidableEq, Repr

/-- The system prompt of the chat screen. -/
def systemPrompt : String :=
  "You are a warm, playful companion. You\x27re cheerful, supportive, and speak casually like a close friend. Keep responses concise (1-3 sentences usually). Use a gentle, encouraging tone. You can be witty and fun but never mean. You genuinely care about the person you\x27re talking to."

/-- The sendMessage handler of ChatScreen: trims the input; returns
immediately when the trimmed text is empty or a request is in flight;
otherwise appends the user message, clears the input, sets loading and
issues one chat-completion request carrying the system prompt, the updated
message list and the selected model. -/
def sendMessage (s : ChatState) : ChatState × Option ChatRequest :=
  let text := s.input.trim
  if text = "" ∨ s.loading = true then (s, none)
  else
    let updated := s.messages ++ [⟨.user, text⟩]
    ({ s with messages := updated, input := "", loading := true },
      some ⟨s.selectedModel, ⟨.system, systemPrompt⟩ :: updated, 256⟩)

/-- Which lines a store holds. -/
def storeLines : Store → List Line
  | .file ls => ls
  | _ => []

/-- Success test for results of the scratchpad operations. -/
def isOkE : Except Err α → Bool
  | .ok _ => true
  | .error _ => false

theorem dropPfx_self_append (p s : List Char) : dropPfx p (p ++ s) = some s := by
  induction p with
  | nil => rfl
  | cons c cs ih => simp [dropPfx, ih]

theorem isHeaderLine_render (e : Entry) : isHeaderLine (renderHeader e) = true := by
  simp [isHeaderLine, renderHeader, dropPfx_self_append]

theorem splitBar_ne_nil (l : List Char) : splitBar l ≠ [] := by
  induction l with
  | nil => simp [splitBar]
  | cons c cs ih =>
    simp only [splitBar]
    split
    · simp
    · split
      · simp
      · simp

theorem splitBar_noBar (x : List Char) (hx : '|' ∉ x) : splitBar x = [x] := by
  induction x with
  | nil => rfl
  | cons c cs ih =>
    have hc : c ≠ '|' := fun h => hx (h ▸ List.mem_cons_self c cs)
    have hcs : '|' ∉ cs := fun h => hx (List.mem_cons_of_mem c h)
    simp [splitBar, hc, ih hcs]

theorem splitBar_append_bar (x r : List Char) (hx : '|' ∉ x) :
    splitBar (x ++ '|' :: r) = x :: splitBar r := by
  induction x with
  | nil => simp [splitBar]
  | cons c cs ih =>
    have hc : c ≠ '|' := fun h => hx (h ▸ List.mem_cons_self c cs)
    have hcs : '|' ∉ cs := fun h => hx (List.mem_cons_of_mem c h)
    have h1 := ih hcs
    simp only [List.cons_append, splitBar, hc, if_false, List.append_eq, h1]

theorem trimL_cons_space (l : List Char) : trimL (' ' :: l) = trimL l := by
  simp [trimL, List.dropWhile]

theorem trimL_no_lead (l : List Char) (h : l.head? ≠ some ' ') : trimL l = l := by
  cases l with
  | nil => rfl
  | cons c cs =>
    have hc : c ≠ ' ' := by
      intro hcc
      exact h (by simp [hcc])
    simp [trimL, List.dropWhile, hc]

theorem trimR_append_space (l : List Char) : trimR (l ++ [' ']) = trimR l := by
  simp [trimR, List.reverse_append, trimL_cons_space]

theorem trimR_no_trail (l : List Char) (h : l.getLast? ≠ some ' ') : trimR l = l := by
  have hh : l.reverse.head? ≠ some ' ' := by
    rwa [List.head?_reverse]
  simp [trimR, trimL_no_lead l.reverse hh]

theorem trimSp_fieldOk (f : List Char) (h : fieldOk f) : trimSp f = f := by
  obtain ⟨-, h1, h2⟩ := h
  rw [trimSp, trimL_no_lead f h1, trimR_no_trail f h2]

theorem trimSp_first (f : List Char) (h : fieldOk f) : trimSp (f ++ [' ']) = f := by
  obtain ⟨-, h1, h2⟩ := h
  cases f with
  | nil => rfl
  | cons c cs =>
    rw [trimSp, trimL_no_lead _ (by simp_all), trimR_append_space, trimR_no_trail _ h2]

theorem trimSp_last (f : List Char) (h : fieldOk f) : trimSp (' ' :: f) = f := by
  obtain ⟨-, h1, h2⟩ := h
  rw [trimSp, trimL_cons_space, trimL_no_lead f h1, trimR_no_trail f h2]

theorem trimSp_mid (f : List Char) (h : fieldOk f) : trimSp (' ' :: f ++ [' ']) = f := by
  obtain ⟨-, h1, h2⟩ := h
  cases f with
  | nil => rfl
  | cons c cs =>
    rw [trimSp, List.cons_append, trimL_cons_space,
      trimL_no_lead _ (by simp_all), trimR_append_space, trimR_no_trail _ h2]

theorem trim_split_tail (parts : List (List Char)) (hne : parts ≠ [])
    (hok : ∀ p ∈ parts, fieldOk p) :
    (splitBar (' ' :: joinBar parts)).map trimSp = parts := by
  induction parts with
  | nil => cases hne rfl
  | cons x rest ih =>
    cases rest with
    | nil =>
      have hx := hok x (by simp)
      have hnb : '|' ∉ (' ' :: x) := by
        intro hmem
        rcases List.mem_cons.mp hmem with h | h
        · exact absurd h (by decide)
        · exact hx.1 h
      simp [joinBar, splitBar_noBar _ hnb, trimSp_last x hx]
    | cons y t =>
      have hx := hok x (by simp)
      have hsh : (' ' :: joinBar (x :: y :: t)) =
          ((' ' :: x ++ [' ']) ++ '|' :: (' ' :: joinBar (y :: t))) := by
        simp [joinBar, sepBar]
      have hnb : '|' ∉ (' ' :: x ++ [' ']) := by
        intro hmem
        simp only [List.cons_append, List.mem_cons, List.mem_append,
          List.mem_singleton] at hmem
        rcases hmem with h | h | h
        · exact absurd h (by decide)
        · exact hx.1 h
        · exact absurd h (by decide)
      rw [hsh, splitBar_append_bar _ _ hnb]
      simp only [List.map_cons]
      rw [trimSp_mid x hx, ih (by simp) (fun p hp => hok p (by simp [hp]))]

theorem trim_split_join (parts : List (List Char)) (hne : parts ≠ [])
    (hok : ∀ p ∈ parts, fieldOk p) :
    (splitBar (joinBar parts)).map trimSp = parts := by
  cases parts with
  | nil => cases hne rfl
  | cons x rest =>
    cases rest with
    | nil =>
      have hx := hok x (by simp)
      simp [joinBar, splitBar_noBar _ hx.1, trimSp_fieldOk x hx]
    | cons y t =>
      have hx := hok x (by simp)
      have hsh : joinBar (x :: y :: t) =
          ((x ++ [' ']) ++ '|' :: (' ' :: joinBar (y :: t))) := by
        simp [joinBar, sepBar]
      have hnb : '|' ∉ (x ++ [' ']) := by
        intro hmem
        simp only [List.mem_append, List.mem_singleton] at hmem
        rcases hmem with h | h
        · exact hx.1 h
        · exact absurd h (by decide)
      rw [hsh, splitBar_append_bar _ _ hnb]
      simp only [List.map_cons]
      rw [trimSp_first x hx,
        trim_split_tail (y :: t) (by simp) (fun p hp => hok p (by simp [hp]))]

theorem parseType_typeStr (t : EntryType) : parseType (typeStr t) = some t := by
  cases t <;> rfl

theorem fieldOk_typeStr (t : EntryType) : fieldOk (typeStr t) := by
  cases t <;> decide

theorem fieldOk_key_append (k v : List Char) (hk : fieldOk k) (hkne : k ≠ [])
    (hv : fieldOk v) : fieldOk (k ++ v) := by
  obtain ⟨hk1, hk2, hk3⟩ := hk
  obtain ⟨hv1, hv2, hv3⟩ := hv
  refine ⟨?_, ?_, ?_⟩
  · intro hmem
    rcases List.mem_append.mp hmem with h | h
    · exact hk1 h
    · exact hv1 h
  · cases k with
    | nil => exact absurd rfl hkne
    | cons c cs => simpa using hk2
  · cases v with
    | nil => simpa using hk3
    | cons c cs =>
      rw [List.getLast?_append, Option.or_of_isSome (by simp [List.getLast?_isSome])]
      exact hv3

theorem findVal_cons_some (k p v : List Char) (ps : List (List Char))
    (h : dropPfx k p = some v) : findVal k (p :: ps) = some v := by
  simp [findVal, h]

theorem findVal_cons_none (k p : List Char) (ps : List (List Char))
    (h : dropPfx k p = none) : findVal k (p :: ps) = findVal k ps := by
  simp [findVal, h]

theorem dropPfx_role_id (v : List Char) : dropPfx roleKey (idKey ++ v) = none := rfl

theorem dropPfx_role_closes (v : List Char) : dropPfx roleKey (closesKey ++ v) = none := rfl

theorem dropPfx_id_role (v : List Char) : dropPfx idKey (roleKey ++ v) = none := rfl

theorem dropPfx_id_closes (v : List Char) : dropPfx idKey (closesKey ++ v) = none := rfl

theorem dropPfx_closes_role (v : List Char) : dropPfx closesKey (roleKey ++ v) = none := rfl

theorem dropPfx_closes_id (v : List Char) : dropPfx closesKey (idKey ++ v) = none := rfl

theorem headerParts_ne_nil (e : Entry) : headerParts e ≠ [] := by
  simp [headerParts]

theorem headerParts_ok (e : Entry) (hts : fieldOk e.timestamp) (hag : fieldOk e.agent)
    (hrole : optOk e.role) (hid : optOk e.id) (hcl : optOk e.closes) :
    ∀ p ∈ headerParts e, fieldOk p := by
  have h1 : fieldOk (agentKey ++ e.agent) :=
    fieldOk_key_append _ _ (by decide) (by decide) hag
  have h2 : ∀ p ∈ (e.role.map (fun r => roleKey ++ r)).toList, fieldOk p := by
    cases hr : e.role with
    | none => simp
    | some r =>
      rw [hr] at hrole
      simpa using fieldOk_key_append _ _ (by decide) (by decide) hrole
  have h3 : ∀ p ∈ (e.id.map (fun i => idKey ++ i)).toList, fieldOk p := by
    cases hr : e.id with
    | none => simp
    | some i =>
      rw [hr] at hid
      simpa using fieldOk_key_append _ _ (by decide) (by decide) hid
  have h4 : ∀ p ∈ (e.closes.map (fun c => closesKey ++ c)).toList, fieldOk p := by
    cases hr : e.closes with
    | none => simp
    | some c =>
      rw [hr] at hcl
      simpa using fieldOk_key_append _ _ (by decide) (by decide) hcl
  intro p hp
  simp only [headerParts, List.append_assoc, List.mem_append, List.mem_cons,
    List.not_mem_nil, or_false] at hp
  rcases hp with (rfl | rfl | rfl) | hp | hp | hp
  · exact hts
  · exact fieldOk_typeStr _
  · exact h1
  · exact h2 p hp
  · exact h3 p hp
  · exact h4 p hp

theorem parseHeader_render (e : Entry) (h : entryWF e) :
    parseHeader (renderHeader e) = some { e with body := [] } := by
  obtain ⟨hts, hag, hrole, hid, hcloses, hbody, hqid, hacl⟩ := h
  have hparts := trim_split_join (headerParts e) (headerParts_ne_nil e)
    (headerParts_ok e hts hag hrole hid hcloses)
  obtain ⟨ts, ty, ag, role, id, closes, body⟩ := e
  rcases role with _ | r <;> rcases id with _ | i <;> rcases closes with _ | c <;>
    simp_all [parseHeader, renderHeader, headerParts, dropPfx_self_append,
      parseType_typeStr, findVal, dropPfx_role_id, dropPfx_role_closes,
      dropPfx_id_role, dropPfx_id_closes, dropPfx_closes_role, dropPfx_closes_id]

theorem parseAux_nil (cur : Option (Line × List Line)) :
    parseAux cur [] = finishBlock cur := rfl

theorem parseAux_boundary (ys : List Line) (hys : atBoundary ys) :
    ∀ (xs : List Line) (cur : Option (Line × List Line)),
      parseAux cur (xs ++ ys) = parseAux cur xs ++ parseAux none ys := by
  intro xs
  induction xs with
  | nil =>
    intro cur
    cases ys with
    | nil => simp [parseAux, finishBlock]
    | cons y t =>
      have hy : isHeaderLine y = true := hys
      simp [parseAux, hy, finishBlock]
  | cons l ls ih =>
    intro cur
    by_cases hl : isHeaderLine l
    · simp [parseAux, hl, ih]
    · cases cur with
      | none => simp [parseAux, hl, ih]
      | some hb => simp [parseAux, hl, ih]

theorem parseAux_body (b2 : List Line) (hb2 : bodyOk b2) :
    ∀ (hd : Line) (b : List Line),
      parseAux (some (hd, b)) b2 = finishBlock (some (hd, b ++ b2)) := by
  induction b2 with
  | nil => intro hd b; simp [parseAux]
  | cons l ls ih =>
    intro hd b
    have hl : isHeaderLine l = false := hb2 l (by simp)
    have hls : bodyOk ls := fun x hx => hb2 x (by simp [hx])
    simp [parseAux, hl, ih hls, List.append_assoc]

theorem parseAux_single (e : Entry) (h : entryWF e) :
    parseAux none (renderEntry e) = [.ok e] := by
  have hbody : bodyOk e.body := h.2.2.2.2.2.1
  simp only [renderEntry, parseAux, isHeaderLine_render, if_true, finishBlock,
    List.nil_append]
  rw [parseAux_body e.body hbody (renderHeader e) []]
  simp [finishBlock, parseHeader_render e h]

theorem parseAux_skipblock (m : Line) (bs : List Line) (hm : isHeaderLine m = true)
    (hbad : parseHeader m = none) (hbs : bodyOk bs) :
    parseAux none (m :: bs) = [.skipped m] := by
  simp only [parseAux, hm, if_true, finishBlock, List.nil_append]
  rw [parseAux_body bs hbs m []]
  simp [finishBlock, hbad]

theorem parseEntries_append_entry (ls : List Line) (e : Entry) (h : entryWF e) :
    parseEntries (ls ++ renderEntry e) = parseEntries ls ++ [e] := by
  have hb : atBoundary (renderEntry e) := by
    simp [renderEntry, atBoundary, isHeaderLine_render]
  unfold parseEntries parseResults
  rw [parseAux_boundary (renderEntry e) hb ls none, parseAux_single e h,
    List.filterMap_append]
  rfl

theorem parseResults_skip (xs bs ys : List Line) (m : Line)
    (hm : isHeaderLine m = true) (hbad : parseHeader m = none)
    (hbs : bodyOk bs) (hys : atBoundary ys) :
    parseResults (xs ++ ((m :: bs) ++ ys)) =
      parseAux none xs ++ ([.skipped m] ++ parseAux none ys) := by
  have hb1 : atBoundary ((m :: bs) ++ ys) := by simp [atBoundary, hm]
  unfold parseResults
  rw [parseAux_boundary _ hb1 xs none, parseAux_boundary ys hys (m :: bs) none,
    parseAux_skipblock m bs hm hbad hbs]

theorem parseEntries_skip (xs bs ys : List Line) (m : Line)
    (hm : isHeaderLine m = true) (hbad : parseHeader m = none)
    (hbs : bodyOk bs) (hys : atBoundary ys) :
    parseEntries (xs ++ ((m :: bs) ++ ys)) = parseEntries (xs ++ ys) := by
  unfold parseEntries
  rw [parseResults_skip xs bs ys m hm hbad hbs hys]
  unfold parseResults
  rw [parseAux_boundary ys hys xs none]
  simp

theorem skipped_mem_parseResults (xs bs ys : List Line) (m : Line)
    (hm : isHeaderLine m = true) (hbad : parseHeader m = none)
    (hbs : bodyOk bs) (hys : atBoundary ys) :
    PR.skipped m ∈ parseResults (xs ++ ((m :: bs) ++ ys)) := by
  rw [parseResults_skip xs bs ys m hm hbad hbs hys]
  simp

theorem stillOpen_cons (q e : Entry) (rest : List Entry) :
    stillOpen q (e :: rest) =
      ((!(decide (e.type = .ANSWER) && decide (e.closes ≠ none) && decide (e.closes = q.id)))
        && stillOpen q rest) := rfl

theorem openScan_cons_question (acc : List Entry) (e : Entry) (rest : List Entry)
    (h : e.type = .QUESTION) : openScan acc (e :: rest) = openScan (acc ++ [e]) rest := by
  simp [openScan, h]

theorem openScan_cons_answer_some (acc : List Entry) (e : Entry) (rest : List Entry)
    (c : Line) (h : e.type = .ANSWER) (hc : e.closes = some c) :
    openScan acc (e :: rest) =
      openScan (acc.filter (fun q => decide (q.id ≠ some c))) rest := by
  simp [openScan, h, hc]

theorem openScan_cons_answer_none (acc : List Entry) (e : Entry) (rest : List Entry)
    (h : e.type = .ANSWER) (hc : e.closes = none) :
    openScan acc (e :: rest) = openScan acc rest := by
  simp [openScan, h, hc]

theorem openScan_cons_other (acc : List Entry) (e : Entry) (rest : List Entry)
    (h1 : e.type ≠ .QUESTION) (h2 : e.type ≠ .ANSWER) :
    openScan acc (e :: rest) = openScan acc rest := by
  cases hty : e.type <;> simp [openScan, hty] <;> simp [hty] at h1 h2

theorem openScan_eq (es : List Entry) :
    ∀ acc : List Entry,
      openScan acc es = acc.filter (fun q => stillOpen q es) ++ openQuestionsSpec es := by
  induction es with
  | nil =>
    intro acc
    simp [openScan, openQuestionsSpec, stillOpen]
  | cons e rest ih =>
    intro acc
    by_cases hq : e.type = .QUESTION
    · rw [openScan_cons_question acc e rest hq, ih, List.filter_append]
      have hcong : ∀ q ∈ acc, stillOpen q rest = stillOpen q (e :: rest) := by
        intro q hq2
        rw [stillOpen_cons]
        simp [hq]
      rw [List.filter_congr hcong, List.append_assoc]
      congr 1
      by_cases hs : stillOpen e rest <;> simp [openQuestionsSpec, hq, hs]
    · by_cases ha : e.type = .ANSWER
      · cases hc : e.closes with
        | none =>
          rw [openScan_cons_answer_none acc e rest ha hc, ih]
          have hcong : ∀ q ∈ acc, stillOpen q rest = stillOpen q (e :: rest) := by
            intro q hq2
            rw [stillOpen_cons]
            simp [hc]
          rw [List.filter_congr hcong]
          congr 1
          simp [openQuestionsSpec, ha]
        | some c =>
          rw [openScan_cons_answer_some acc e rest c ha hc, ih, List.filter_filter]
          have hcong : ∀ q ∈ acc,
              (stillOpen q rest && decide (q.id ≠ some c)) = stillOpen q (e :: rest) := by
            intro q hq2
            rw [stillOpen_cons, ha, hc]
            by_cases hqi : q.id = some c
            · simp [hqi]
            · have h2 : ¬ some c = q.id := fun h => hqi h.symm
              simp [hqi, h2]
          rw [List.filter_congr hcong]
          congr 1
          simp [openQuestionsSpec, ha]
      · rw [openScan_cons_other acc e rest hq ha, ih]
        have hcong : ∀ q ∈ acc, stillOpen q rest = stillOpen q (e :: rest) := by
          intro q hq2
          rw [stillOpen_cons]
          simp [ha]
        rw [List.filter_congr hcong]
        congr 1
        simp [openQuestionsSpec, hq]

theorem openQuestions_eq_spec (es : List Entry) :
    openQuestions es = openQuestionsSpec es := by
  rw [openQuestions, openScan_eq es []]
  rfl

theorem openQuestionsSpec_append_phantom (a : Entry) (ha : a.type = .ANSWER) :
    ∀ es : List Entry, (∀ q ∈ es, q.type = .QUESTION → a.closes ≠ q.id) →
      openQuestionsSpec (es ++ [a]) = openQuestionsSpec es := by
  intro es
  induction es with
  | nil =>
    intro _
    simp [openQuestionsSpec, ha]
  | cons e rest ih =>
    intro hph
    have hrest : ∀ q ∈ rest, q.type = .QUESTION → a.closes ≠ q.id :=
      fun q hq => hph q (by simp [hq])
    by_cases hq : e.type = .QUESTION
    · have hcl : a.closes ≠ e.id := hph e (by simp) hq
      have hopen : stillOpen e (rest ++ [a]) = stillOpen e rest := by
        unfold stillOpen
        rw [List.all_append]
        have : List.all [a]
            (fun x => !(decide (x.type = .ANSWER) && decide (x.closes ≠ none) &&
              decide (x.closes = e.id))) = true := by
          simp [hcl]
        rw [this, Bool.and_true]
      simp only [List.cons_append, openQuestionsSpec, List.append_eq, hopen, ih hrest]
    · simp only [List.cons_append, openQuestionsSpec, List.append_eq]
      have hfalse : ¬ (e.type = .QUESTION ∧ stillOpen e (rest ++ [a]) = true) :=
        fun hcontra => hq hcontra.1
      have hfalse2 : ¬ (e.type = .QUESTION ∧ stillOpen e rest = true) :=
        fun hcontra => hq hcontra.1
      rw [if_neg hfalse, if_neg hfalse2, ih hrest]

theorem lastN_suffix (n : Nat) (l : List α) : ∃ pre, l = pre ++ lastN n l :=
  ⟨l.take (l.length - n), (List.take_append_drop _ l).symm⟩

theorem lastN_length (n : Nat) (l : List α) : (lastN n l).length = min n l.length := by
  simp only [lastN, List.length_drop]
  omega

theorem lastN_all (n : Nat) (l : List α) (h : l.length ≤ n) : lastN n l = l := by
  simp [lastN, Nat.sub_eq_zero_of_le h]

theorem genId_inj (m n : Nat) (h : genId m = genId n) : m = n := by
  have hlen := congrArg List.length h
  simp only [genId, List.length_cons, List.length_replicate] at hlen
  omega

theorem runQuestions_ids (qs : List QArg) :
    ∀ (n : Nat) (ls : List Line),
      (runQuestions qs n ls).map Entry.id =
        (List.range' n qs.length).map (fun k => some (genId k)) := by
  induction qs with
  | nil => intro n ls; simp [runQuestions]
  | cons q qs ih =>
    intro n ls
    simp only [runQuestions, List.map_cons, List.length_cons, List.range'_succ,
      ih (n + 1)]

/-- Claim C1: for every log, openQuestions returns exactly the QUESTION
entries whose id is not referenced by any later ANSWER closes reference,
as a sequence in order of first appearance (file order): the accumulator
scan agrees with the declarative description everywhere. -/
theorem c1_openQuestions_exact (es : List Entry) (ls : List Line) :
    openQuestions es = openQuestionsSpec es ∧
    openQuestionsOp (.file ls) = .ok (openQuestionsSpec (parseEntries ls)) :=
  ⟨openQuestions_eq_spec es,
    by simp only [openQuestionsOp, openQuestions_eq_spec]⟩

/-- Claim C9: across any sequence of question calls against the same log,
every generated question id differs from every previously generated one:
the listed ids are pairwise distinct. -/
theorem c9_question_ids_unique (qs : List QArg) (n : Nat) (ls : List Line) :
    ((runQuestions qs n ls).map Entry.id).Nodup := by
  rw [runQuestions_ids]
  exact (List.nodup_range' _ _).map
    (fun a b hab => genId_inj a b (Option.some.inj hab))

/-- Claim C10: when the trimmed input is empty or a request is already in
flight, sendMessage returns immediately: the component state is unchanged
and no network request is issued. -/
theorem c10_sendMessage_frame (s : ChatState)
    (h : s.input.trim = "" ∨ s.loading = true) :
    sendMessage s = (s, none) := by
  simp only [sendMessage]
  rw [if_pos h]

/-- Witness for claim C10 at a concrete in-flight state. -/
theorem c10_sendMessage_frame_witness :
    sendMessage ⟨[], "hi", true, false, "gpt5.2"⟩ =
      (⟨[], "hi", true, false, "gpt5.2"⟩, none) :=
  c10_sendMessage_frame _ (Or.inr rfl)

/-- Claim C3: add fails, always with ValidationError, exactly when the type
keyword is unrecognized, a question lacks a derivable id, or an answer
lacks a closes reference; and a failed add leaves the log unchanged. -/
theorem c3_add_validation (ts : Line) (a : AddArgs) (ls : List Line) :
    ((addOp ts a ls).1 = .error .validationError ↔
      parseType a.typeRaw = none ∨
        (parseType a.typeRaw = some .QUESTION ∧ a.id = none) ∨
        (parseType a.typeRaw = some .ANSWER ∧ a.closes = none)) ∧
    (∀ er : Err, (addOp ts a ls).1 = .error er →
      er = .validationError ∧ (addOp ts a ls).2 = ls) := by
  unfold addOp
  cases hpt : parseType a.typeRaw with
  | none => simp
  | some t =>
    by_cases h1 : t = .QUESTION ∧ a.id = none
    · simp [h1]
    · by_cases h2 : t = .ANSWER ∧ a.closes = none
      · simp [h1, h2]
      · simp [h1, h2]

/-- Witness for claim C3: an unrecognized type keyword is rejected with
ValidationError and the log is left unchanged. -/
theorem c3_add_validation_witness :
    (addOp ['T'] ⟨('B' :: ['A', 'D']), ['a'], none, none, none, []⟩ [['x']]).1 =
        .error .validationError ∧
      (addOp ['T'] ⟨('B' :: ['A', 'D']), ['a'], none, none, none, []⟩ [['x']]).2 = [['x']] := by
  have h := c3_add_validation ['T'] ⟨('B' :: ['A', 'D']), ['a'], none, none, none, []⟩ [['x']]
  have h1 := h.1.mpr (Or.inl (by decide))
  exact ⟨h1, (h.2 .validationError h1).2⟩

/-- Claim C4: init is idempotent in content, fails with AlreadyExists
exactly when an incompatible resource occupies the location, and on that
failure leaves the resource untouched. -/
theorem c4_init_idempotent (s : Store) :
    (initOp (initOp s).2).2 = (initOp s).2 ∧
    ((initOp s).1 = .error .alreadyExists ↔ s = .incompatible) ∧
    (∀ er : Err, (initOp s).1 = .error er →
      er = .alreadyExists ∧ (initOp s).2 = s) := by
  cases s <;> simp [initOp]

/-- Witness for claim C4 at the incompatible store. -/
theorem c4_init_idempotent_witness :
    (initOp (initOp .incompatible).2).2 = (initOp .incompatible).2 ∧
      (initOp .incompatible).1 = .error .alreadyExists :=
  ⟨(c4_init_idempotent .incompatible).1,
    (c4_init_idempotent .incompatible).2.1.mpr rfl⟩

/-- Claim C5: tail fails with NotFound exactly when the log does not exist;
on an existing log it returns the last entries as an in-order suffix of
length min n count, so an empty log yields an empty sequence and an n
larger than the entry count returns all entries without error. -/
theorem c5_tail_spec (n : Nat) (s : Store) :
    ((tailOp n s = .error .notFound) ↔ s.isLog = false) ∧
    (∀ ls : List Line, s = .file ls →
      tailOp n s = .ok (lastN n (parseEntries ls)) ∧
      (∃ pre, parseEntries ls = pre ++ lastN n (parseEntries ls)) ∧
      (lastN n (parseEntries ls)).length = min n (parseEntries ls).length ∧
      (parseEntries ls = [] → lastN n (parseEntries ls) = []) ∧
      ((parseEntries ls).length ≤ n → lastN n (parseEntries ls) = parseEntries ls)) := by
  constructor
  · cases s <;> simp [tailOp, Store.isLog]
  · rintro ls rfl
    refine ⟨rfl, lastN_suffix n _, lastN_length n _, ?_, lastN_all n _⟩
    intro h
    rw [h]
    simp [lastN]

/-- Witness for claim C5: a tail larger than the log returns everything,
and tail on a missing log is NotFound. -/
theorem c5_tail_spec_witness :
    tailOp 5 (.file [("## T | QUESTION | agent=a | id=Q1").data]) =
        .ok (parseEntries [("## T | QUESTION | agent=a | id=Q1").data]) ∧
      tailOp 5 .missing = .error .notFound := by
  obtain ⟨h1, -, -, -, h5⟩ :=
    (c5_tail_spec 5 (.file [("## T | QUESTION | agent=a | id=Q1").data])).2
      [("## T | QUESTION | agent=a | id=Q1").data] rfl
  refine ⟨?_, (c5_tail_spec 5 .missing).1.mpr rfl⟩
  rw [h1, h5 (by decide)]

/-- Claim C8: every operation preserves previously written content as an
unchanged prefix, and a successful add appends exactly the one rendered
entry at the end of the log and changes nothing else. -/
theorem c8_append_only (s : Store) (ts : Line) (a : AddArgs) (ls : List Line) :
    storeLines s <+: storeLines (initOp s).2 ∧
    ls <+: (addOp ts a ls).2 ∧
    (∀ e : Entry, (addOp ts a ls).1 = .ok e →
      (addOp ts a ls).2 = ls ++ renderEntry e) := by
  refine ⟨?_, ?_, ?_⟩
  · cases s <;> simp [initOp, storeLines]
  · unfold addOp
    cases parseType a.typeRaw with
    | none => simp
    | some t =>
      by_cases h1 : t = .QUESTION ∧ a.id = none
      · simp [h1]
      · by_cases h2 : t = .ANSWER ∧ a.closes = none
        · simp [h1, h2]
        · simp [h1, h2]
  · intro e he
    unfold addOp at he ⊢
    cases hpt : parseType a.typeRaw with
    | none => rw [hpt] at he; simp at he
    | some t =>
      rw [hpt] at he
      by_cases h1 : t = .QUESTION ∧ a.id = none
      · simp [h1] at he
      · by_cases h2 : t = .ANSWER ∧ a.closes = none
        · simp [h1, h2] at he
        · simp [h1, h2] at he ⊢
          rw [he]

/-- Witness for claim C8: a concrete successful add appends exactly its one
rendered entry. -/
theorem c8_append_only_witness :
    (addOp ['T'] ⟨typeStr .NOTE, ['a'], none, none, none, [['h', 'i']]⟩ [['x']]).2 =
      [['x']] ++ renderEntry (mkAdded .NOTE ['T']
        ⟨typeStr .NOTE, ['a'], none, none, none, [['h', 'i']]⟩) :=
  (c8_append_only (.file [['x']]) ['T']
      ⟨typeStr .NOTE, ['a'], none, none, none, [['h', 'i']]⟩ [['x']]).2.2
    (mkAdded .NOTE ['T'] ⟨typeStr .NOTE, ['a'], none, none, none, [['h', 'i']]⟩) rfl

/-- Claim C7: a malformed entry block (header-shaped line whose fields do
not satisfy its type) never aborts a read: tail, openQuestions and
filterByType all succeed and return exactly the results for the remaining
well-formed entries, and the malformed header is recorded as skipped. -/
theorem c7_malformed_nonfatal (n : Nat) (t : EntryType) (xs bs ys : List Line)
    (m : Line) (hm : isHeaderLine m = true) (hbad : parseHeader m = none)
    (hbs : bodyOk bs) (hys : atBoundary ys) :
    tailOp n (.file (xs ++ ((m :: bs) ++ ys))) = tailOp n (.file (xs ++ ys)) ∧
    openQuestionsOp (.file (xs ++ ((m :: bs) ++ ys))) =
      openQuestionsOp (.file (xs ++ ys)) ∧
    filterByTypeOp t (.file (xs ++ ((m :: bs) ++ ys))) =
      filterByTypeOp t (.file (xs ++ ys)) ∧
    PR.skipped m ∈ parseResults (xs ++ ((m :: bs) ++ ys)) ∧
    isOkE (tailOp n (.file (xs ++ ((m :: bs) ++ ys)))) = true ∧
    isOkE (openQuestionsOp (.file (xs ++ ((m :: bs) ++ ys)))) = true ∧
    isOkE (filterByTypeOp t (.file (xs ++ ((m :: bs) ++ ys)))) = true := by
  have hpe := parseEntries_skip xs bs ys m hm hbad hbs hys
  simp only [List.cons_append, List.append_assoc] at hpe
  refine ⟨?_, ?_, ?_, skipped_mem_parseResults xs bs ys m hm hbad hbs hys,
    rfl, rfl, rfl⟩
  · simp [tailOp, hpe]
  · simp [openQuestionsOp, hpe]
  · simp [filterByTypeOp, hpe]

/-- Witness for claim C7: a QUESTION header without an id is skipped and the
reads agree with the log without it. -/
theorem c7_malformed_nonfatal_witness :
    tailOp 2 (.file ([("## T | QUESTION | agent=a | id=Q1").data] ++
        ((("## X | QUESTION | agent=b").data :: [("junk").data]) ++ []))) =
      tailOp 2 (.file ([("## T | QUESTION | agent=a | id=Q1").data] ++ [])) ∧
    PR.skipped ("## X | QUESTION | agent=b").data ∈
      parseResults ([("## T | QUESTION | agent=a | id=Q1").data] ++
        ((("## X | QUESTION | agent=b").data :: [("junk").data]) ++ [])) := by
  have h := c7_malformed_nonfatal 2 .NOTE [("## T | QUESTION | agent=a | id=Q1").data]
    [("junk").data] [] (("## X | QUESTION | agent=b").data)
    (by decide) (by decide) (by decide) trivial
  exact ⟨h.1, h.2.2.2.1⟩

/-- The body line of the C6 counterexample: it looks like an entry header. -/
def c6BadBody : Line := ("## X | TASK | agent=b").data

/-- The add call of the C6 counterexample: a valid NOTE whose body line is
header-shaped. -/
def c6BadArgs : AddArgs := ⟨typeStr .NOTE, ['a'], none, none, none, [c6BadBody]⟩

/-- Counterexample to claim C6 as stated: a valid add whose body line looks
like a header does not round-trip; tail 1 returns an entry of a different
type and agent, parsed out of the body line. -/
theorem c6_cex :
    (addOp ['T'] c6BadArgs []).1 = .ok (mkAdded .NOTE ['T'] c6BadArgs) ∧
    tailOp 1 (.file (addOp ['T'] c6BadArgs []).2) =
      .ok [⟨['X'], .TASK, ['b'], none, none, none, []⟩] ∧
    decide ((⟨['X'], .TASK, ['b'], none, none, none, ([] : List Line)⟩ : Entry).type =
      (mkAdded .NOTE ['T'] c6BadArgs).type) = false :=
  ⟨rfl, rfl, rfl⟩

/-- Claim C6 (amended): a valid add call whose header fields are
representable (no bar character, no leading or trailing space) and whose
body lines are not header-shaped round-trips: the appended entry is
returned, tail 1 parses it back identically, and filterByType with its type
lists it last, all fields (type, agent, timestamp, role, body, and id or
closes where applicable) equal to those supplied. -/
theorem c6_roundtrip (t : EntryType) (ts : Line) (a : AddArgs) (ls : List Line)
    (htype : parseType a.typeRaw = some t)
    (hwf : entryWF (mkAdded t ts a)) :
    (addOp ts a ls).1 = .ok (mkAdded t ts a) ∧
    (mkAdded t ts a).type = t ∧
    (mkAdded t ts a).agent = a.agent ∧
    (mkAdded t ts a).timestamp = ts ∧
    (mkAdded t ts a).role = a.role ∧
    (mkAdded t ts a).body = a.body ∧
    (t = .QUESTION → (mkAdded t ts a).id = a.id) ∧
    (t = .ANSWER → (mkAdded t ts a).closes = a.closes) ∧
    tailOp 1 (.file ((addOp ts a ls).2)) = .ok [mkAdded t ts a] ∧
    filterByTypeOp t (.file ((addOp ts a ls).2)) =
      .ok ((parseEntries ls).filter (fun x => decide (x.type = t)) ++ [mkAdded t ts a]) := by
  have h1 : ¬ (t = .QUESTION ∧ a.id = none) := by
    rintro ⟨rfl, hid⟩
    exact hwf.2.2.2.2.2.2.1 rfl (by simp [mkAdded, hid])
  have h2 : ¬ (t = .ANSWER ∧ a.closes = none) := by
    rintro ⟨rfl, hcl⟩
    exact hwf.2.2.2.2.2.2.2 rfl (by simp [mkAdded, hcl])
  have hOK : addOp ts a ls =
      (.ok (mkAdded t ts a), ls ++ renderEntry (mkAdded t ts a)) := by
    unfold addOp
    rw [htype]
    simp [h1, h2]
  have hpe := parseEntries_append_entry ls (mkAdded t ts a) hwf
  have hlast : ∀ (l : List Entry) (e : Entry), lastN 1 (l ++ [e]) = [e] := by
    intro l e
    have hl : (l ++ [e]).length - 1 = l.length := by simp
    rw [lastN, hl, List.drop_left]
  refine ⟨by rw [hOK], rfl, rfl, rfl, rfl, rfl,
    fun h => by simp [mkAdded, h], fun h => by simp [mkAdded, h], ?_, ?_⟩
  · rw [hOK]
    show tailOp 1 (.file (ls ++ renderEntry (mkAdded t ts a))) = .ok [mkAdded t ts a]
    simp only [tailOp, hpe, hlast]
  · rw [hOK]
    show filterByTypeOp t (.file (ls ++ renderEntry (mkAdded t ts a))) =
      .ok ((parseEntries ls).filter (fun x => decide (x.type = t)) ++ [mkAdded t ts a])
    simp only [filterByTypeOp, hpe, List.filter_append]
    simp [mkAdded]

/-- The add call of the C6 witness: a representable NOTE. -/
def c6GoodArgs : AddArgs := ⟨typeStr .NOTE, ['a'], none, none, none, [('h' :: ['i'])]⟩

/-- Witness for the amended claim C6 at a concrete representable add. -/
theorem c6_roundtrip_witness :
    tailOp 1 (.file (addOp ['T'] c6GoodArgs []).2) =
      .ok [mkAdded .NOTE ['T'] c6GoodArgs] :=
  (c6_roundtrip .NOTE ['T'] c6GoodArgs [] (by decide)
    (by decide)).2.2.2.2.2.2.2.2.1

/-- The one-question log of the C2 counterexample. -/
def c2QLine : Line := ("## T | QUESTION | agent=a | id=Q1").data

/-- The phantom-answer add call of the C2 counterexample: closes references
an id no question has, but a body line smuggles a second header-shaped
answer that closes Q1. -/
def c2BadArgs : AddArgs :=
  ⟨typeStr .ANSWER, ['x'], none, none, some ('P' :: ['H']),
    [("## U | ANSWER | agent=x | closes=Q1").data]⟩

/-- Counterexample to claim C2 as stated: an answer whose closes value
matches no question id still changes openQuestions, because its
header-shaped body line parses as a further answer that closes Q1. -/
theorem c2_cex :
    ((parseEntries [c2QLine]).all
      (fun q => !(decide (q.type = .QUESTION) &&
        decide (q.id = some ('P' :: ['H'])))) = true) ∧
    (addOp ['V'] c2BadArgs [c2QLine]).1 = .ok (mkAdded .ANSWER ['V'] c2BadArgs) ∧
    openQuestionsOp (.file [c2QLine]) =
      .ok [⟨['T'], .QUESTION, ['a'], none, some ['Q', '1'], none, []⟩] ∧
    openQuestionsOp (.file (addOp ['V'] c2BadArgs [c2QLine]).2) = .ok [] :=
  ⟨rfl, rfl, rfl, rfl⟩

/-- Claim C2 (amended): an add of type ANSWER whose closes value matches no
question id in the log, and whose header fields are representable and body
lines not header-shaped, succeeds with no write-time referential check, and
a subsequent openQuestions is the same as if the phantom answer had never
been appended. -/
theorem c2_phantom_answer (ts : Line) (a : AddArgs) (c : Line) (ls : List Line)
    (htype : a.typeRaw = typeStr .ANSWER) (hcl : a.closes = some c)
    (hts : fieldOk ts) (hag : fieldOk a.agent) (hrole : optOk a.role)
    (hc : fieldOk c) (hbody : bodyOk a.body)
    (hph : ∀ q ∈ parseEntries ls, q.type = .QUESTION → q.id ≠ some c) :
    (addOp ts a ls).1 = .ok (mkAdded .ANSWER ts a) ∧
    openQuestionsOp (.file (addOp ts a ls).2) = openQuestionsOp (.file ls) := by
  have hpt : parseType a.typeRaw = some .ANSWER := by
    rw [htype]
    exact parseType_typeStr .ANSWER
  have hwf : entryWF (mkAdded .ANSWER ts a) := by
    refine ⟨hts, hag, ?_, ?_, ?_, hbody, ?_, ?_⟩
    · simpa [mkAdded] using hrole
    · simp [mkAdded, optOk]
    · simpa [mkAdded, optOk, hcl] using hc
    · intro h
      simp [mkAdded] at h
    · intro _
      simp [mkAdded, hcl]
  have hOK : addOp ts a ls =
      (.ok (mkAdded .ANSWER ts a), ls ++ renderEntry (mkAdded .ANSWER ts a)) := by
    unfold addOp
    rw [hpt]
    simp [hcl]
  have hpe := parseEntries_append_entry ls (mkAdded .ANSWER ts a) hwf
  refine ⟨by rw [hOK], ?_⟩
  rw [hOK]
  show openQuestionsOp (.file (ls ++ renderEntry (mkAdded .ANSWER ts a))) =
    openQuestionsOp (.file ls)
  simp only [openQuestionsOp, hpe]
  congr 1
  rw [openQuestions_eq_spec, openQuestions_eq_spec]
  apply openQuestionsSpec_append_phantom (mkAdded .ANSWER ts a) rfl
  intro q hq hqt
  have hne : q.id ≠ some c := hph q hq hqt
  simp only [mkAdded, hcl]
  exact fun h => hne h.symm

/-- Witness for the amended claim C2: a representable phantom answer leaves
the open questions unchanged. -/
theorem c2_phantom_answer_witness :
    openQuestionsOp (.file (addOp ['V']
        ⟨typeStr .ANSWER, ['x'], none, none, some ('P' :: ['H']), [('o' :: ['k'])]⟩
        [c2QLine]).2) =
      openQuestionsOp (.file [c2QLine]) :=
  (c2_phantom_answer ['V']
    ⟨typeStr .ANSWER, ['x'], none, none, some ('P' :: ['H']), [('o' :: ['k'])]⟩
    ('P' :: ['H']) [c2QLine] rfl rfl (by decide) (by decide) (by decide)
    (by decide) (by decide) (by decide)).2
